import Mathlib

/-!
Shallow embedding of the 3D tic-tac-toe core (liukairen/3dtictactoe):
`src/components/Board.js`, `src/components/Player.js`,
`src/components/Game.js`.  Player markers and the current player are
JavaScript strings ("X" / "O"); a board cell holds `null` or a marker
string, embedded as `Option String`.  The rendering / scene-graph glue is
out of scope; only the board state, win detection and game control flow
are modelled.
-/

namespace TTT

/-- A cell coordinate: an ordered triple with each component in `[0,2]`,
matching the 3×3×3 grid of `Board.js` (`gridSize = 3`). -/
abbrev Cell : Type := Fin 3 × Fin 3 × Fin 3

/-- The occupancy grid `this.board`: each of the 27 cells holds `null`
(`none`) or the occupying player's marker string. -/
abbrev Board : Type := Cell → Option String

/-- The empty board produced by the `Board` constructor (all cells `null`). -/
def Board.initial : Board := fun _ => none

/-- The bounds test of the `while` condition in `countInDirection`
(`Board.js` lines 224–231): each coordinate is `>= 0` and `< gridSize`. -/
def inRange (x y z : Int) : Bool :=
  decide (0 ≤ x) && decide (x < 3) && decide (0 ≤ y) && decide (y < 3) &&
    decide (0 ≤ z) && decide (z < 3)

/-- Convert in-range integer coordinates to a `Cell`. -/
def toCell (x y z : Int) (h : inRange x y z = true) : Cell :=
  have h6 : 0 ≤ x ∧ x < 3 ∧ 0 ≤ y ∧ y < 3 ∧ 0 ≤ z ∧ z < 3 := by
    simp only [inRange, Bool.and_eq_true, decide_eq_true_eq] at h
    exact ⟨h.1.1.1.1.1, h.1.1.1.1.2, h.1.1.1.2, h.1.1.2, h.1.2, h.2⟩
  (⟨x.toNat, by omega⟩, ⟨y.toNat, by omega⟩, ⟨z.toNat, by omega⟩)

/-- Guarded grid access `this.board[x][y][z]` at integer coordinates:
`none` means the access would be out of the 3×3×3 array bounds (in the
JavaScript source such an access is a programming error), `some occ`
returns the occupant of the in-range cell. -/
def getCell (b : Board) (x y z : Int) : Option (Option String) :=
  if h : inRange x y z = true then some (b (toCell x y z h)) else none

/-- `Board.isCellEmpty(cell)`: `this.board[cell.x][cell.y][cell.z] === null`
(`Board.js` lines 86–88), for a cell already known to be in range. -/
def isCellEmpty (b : Board) (c : Cell) : Bool := (b c).isNone

/-- `Board.isCellEmpty` at raw integer coordinates, with the out-of-range
array access made explicit as `none` (the error branch). -/
def isCellEmptyAt (b : Board) (x y z : Int) : Option Bool :=
  (getCell b x y z).map Option.isNone

/-- `Board.placePiece(cell, player)` (`Board.js` lines 90–102): if the
cell is not empty, return `null` (failure, no mutation); otherwise mark
the cell as occupied by `player` and signal success.  The returned pair
is (resulting board state, success flag). -/
def placePiece (b : Board) (c : Cell) (player : String) : Board × Bool :=
  if isCellEmpty b c then
    (fun c' => if c' = c then some player else b c', true)
  else (b, false)

/-- `Board.placePiece` at raw integer coordinates, with the out-of-range
array access made explicit as `none` (the error branch). -/
def placePieceAt (b : Board) (x y z : Int) (player : String) :
    Option (Board × Bool) :=
  if h : inRange x y z = true then some (placePiece b (toCell x y z h) player)
  else none

/-- The loop body of `Board.countInDirection` (`Board.js` lines 224–240):
starting from position `(x, y, z)`, while the position is in range and
occupied by `player`, increment the count and step by the direction
vector `d`.  The JavaScript `while` loop is modelled with a fuel
parameter; theorem `countGo_fuel_adequate` shows the result is the same
for every fuel value of at least 3, so the loop terminates and
`countInDirection` below (fuel 3) computes its exact value. -/
def countGo (b : Board) (player : String) (d : Int × Int × Int) :
    Nat → Int → Int → Int → Nat → Nat
  | 0, _, _, _, count => count
  | fuel + 1, x, y, z, count =>
    if getCell b x y z = some (some player) then
      countGo b player d fuel (x + d.1) (y + d.2.1) (z + d.2.2) (count + 1)
    else count

/-- `Board.countInDirection(x, y, z, direction, player)` (`Board.js`
lines 216–243): the number of consecutive cells occupied by `player`
starting one step from `(x, y, z)` in direction `direction`, stopping at
the first non-matching cell or the grid boundary. -/
def countInDirection (b : Board) (x y z : Int) (direction : Int × Int × Int)
    (player : String) : Nat :=
  countGo b player direction 3 (x + direction.1) (y + direction.2.1)
    (z + direction.2.2) 0

/-- The fixed table of 13 direction pairs of `Board.checkWin`
(`Board.js` lines 139–197), in source order: 3 axes, 6 face diagonals,
4 space diagonals, each paired with its negation. -/
def directions : List ((Int × Int × Int) × (Int × Int × Int)) :=
  [((1, 0, 0), (-1, 0, 0)),
   ((0, 1, 0), (0, -1, 0)),
   ((0, 0, 1), (0, 0, -1)),
   ((1, 1, 0), (-1, -1, 0)),
   ((1, -1, 0), (-1, 1, 0)),
   ((1, 0, 1), (-1, 0, -1)),
   ((1, 0, -1), (-1, 0, 1)),
   ((0, 1, 1), (0, -1, -1)),
   ((0, 1, -1), (0, -1, 1)),
   ((1, 1, 1), (-1, -1, -1)),
   ((1, 1, -1), (-1, -1, 1)),
   ((1, -1, 1), (-1, 1, -1)),
   ((-1, 1, 1), (1, -1, -1))]

/-- `Board.checkWin(cell, player)` (`Board.js` lines 135–214): for each
of the 13 direction pairs, count 1 for the queried cell itself plus the
runs in the positive and negative directions; return true as soon as a
total of at least 3 is reached. -/
def checkWin (b : Board) (x y z : Int) (player : String) : Bool :=
  directions.any fun pr =>
    decide (3 ≤ 1 + countInDirection b x y z pr.1 player
      + countInDirection b x y z pr.2 player)

/-- `Board.checkWin` applied to a `Cell` value, as done by
`Game.makeMove` (the cell's nonnegative coordinates are passed through
unchanged). -/
def checkWinCell (b : Board) (c : Cell) (player : String) : Bool :=
  checkWin b (c.1 : Nat) (c.2.1 : Nat) (c.2.2 : Nat) player

/-- The 27 cells, in the `x`/`y`/`z` nesting order of the loops in
`Board.js`. -/
def allCells : List Cell :=
  (List.finRange 3).flatMap fun x =>
    (List.finRange 3).flatMap fun y =>
      (List.finRange 3).map fun z => (x, y, z)

/-- `Board.isBoardFull()` (`Board.js` lines 245–256): false iff some
cell still holds `null`. -/
def isBoardFull (b : Board) : Bool :=
  allCells.all fun c => (b c).isSome

/-- `Board.reset()` (`Board.js` lines 258–273): every cell back to
`null`. -/
def Board.reset : Board := fun _ => none

/-- The number of occupied cells of a board. -/
def occupiedCount (b : Board) : Nat :=
  (allCells.filter fun c => (b c).isSome).length

/-- The win-count record `this.score = { X: 0, O: 0 }` of `Player.js`. -/
structure Score where
  forX : Nat
  forO : Nat
deriving DecidableEq

/-- The `Player` class of `Player.js`: the current player marker and the
score record. -/
structure PlayerState where
  currentPlayer : String
  score : Score
deriving DecidableEq

/-- The `Player` constructor. -/
def PlayerState.initial : PlayerState := ⟨"X", ⟨0, 0⟩⟩

/-- `Player.addScore(player)` (`Player.js` lines 18–22): increment the
count for `player` only when the score object has that key, i.e. only
for the strings "X" and "O"; any other value is silently ignored. -/
def addScore (ps : PlayerState) (m : String) : PlayerState :=
  if m = "X" then { ps with score := { ps.score with forX := ps.score.forX + 1 } }
  else if m = "O" then { ps with score := { ps.score with forO := ps.score.forO + 1 } }
  else ps

/-- `Player.switchPlayer()` (`Player.js` lines 9–12). -/
def PlayerState.switchPlayer (ps : PlayerState) : PlayerState :=
  { ps with currentPlayer := if ps.currentPlayer = "X" then "O" else "X" }

/-- `Player.resetScore()` (`Player.js` lines 28–30). -/
def PlayerState.resetScore (ps : PlayerState) : PlayerState :=
  { ps with score := ⟨0, 0⟩ }

/-- The `this.gameStatus` string of `Game.js`, which only ever takes the
values "playing", "won" and "draw". -/
inductive Status where
  | playing
  | won
  | draw
deriving DecidableEq

/-- The game-relevant state of the `Game` class (`Game.js`): the board,
`this.currentPlayer`, `this.gameStatus` and the `Player` score-keeping
object `this.player` (which `Game.js` constructs but never updates). -/
structure Game where
  board : Board
  currentPlayer : String
  gameStatus : Status
  player : PlayerState

/-- The `Game` constructor state (`Game.js` lines 16–19). -/
def Game.initial : Game :=
  { board := Board.initial, currentPlayer := "X", gameStatus := .playing,
    player := PlayerState.initial }

/-- `Game.makeMove(cell)` (`Game.js` lines 497–518): place the piece
(the return value of `placePiece` is ignored by the source), then, in
order: on `checkWin` set status "won" and stop; else on `isBoardFull`
set status "draw" and stop; else switch the current player.  No
validation of the status or of the target cell is performed here. -/
def makeMove (g : Game) (c : Cell) : Game :=
  let b := (placePiece g.board c g.currentPlayer).1
  if checkWinCell b c g.currentPlayer then
    { g with board := b, gameStatus := .won }
  else if isBoardFull b then
    { g with board := b, gameStatus := .draw }
  else
    { g with board := b,
             currentPlayer := if g.currentPlayer = "X" then "O" else "X" }

/-- The click-path guard of `Game.setupClickDetection` (`Game.js` lines
468–495), restricted to its game-logic content: the click is ignored
when the status is not "playing", and `makeMove` is invoked only when
the hit cell is empty. -/
def clickMove (g : Game) (c : Cell) : Game :=
  if g.gameStatus ≠ .playing then g
  else if isCellEmpty g.board c then makeMove g c
  else g

/-- `Game.reset()` (`Game.js` lines 533–539): current player back to
"X", status back to "playing", board cleared; the score object is not
touched. -/
def Game.reset (g : Game) : Game :=
  { g with currentPlayer := "X", gameStatus := .playing,
           board := Board.reset }

/-- A direction triple with a component equal to `1` or `-1`; every entry
of the `directions` table (both members of each pair) has this shape. -/
def hasUnitComp (d : Int × Int × Int) : Prop :=
  d.1 = 1 ∨ d.1 = -1 ∨ d.2.1 = 1 ∨ d.2.1 = -1 ∨ d.2.2 = 1 ∨ d.2.2 = -1

instance (d : Int × Int × Int) : Decidable (hasUnitComp d) := by
  unfold hasUnitComp; infer_instance

/-- One step along a direction vector. -/
def add3 (q d : Int × Int × Int) : Int × Int × Int :=
  (q.1 + d.1, q.2.1 + d.2.1, q.2.2 + d.2.2)

/-- The integer coordinates of a `Cell`. -/
def cellPos (c : Cell) : Int × Int × Int :=
  (((c.1 : Nat) : Int), ((c.2.1 : Nat) : Int), ((c.2.2 : Nat) : Int))

/-- The position lies inside the 3×3×3 grid. -/
def inGrid (q : Int × Int × Int) : Prop := inRange q.1 q.2.1 q.2.2 = true

/-- The position lies inside the grid and is occupied by `p`. -/
def occBy (b : Board) (q : Int × Int × Int) (p : String) : Prop :=
  getCell b q.1 q.2.1 q.2.2 = some (some p)

/-- The 13 undirected line directions: the first member of each pair of
the `directions` table. -/
def lineDirs : List (Int × Int × Int) := directions.map Prod.fst

/-- Stated from the specification, for one direction `d`: a line of
exactly three consecutive cells `q0`, `q0+d`, `q0+2d`, all inside the
3×3×3 grid, passes through the queried cell `c`, and every cell of the
line other than `c` is occupied by `p` (the queried cell itself is
counted as the player's piece without being read). -/
def lineThroughWith (b : Board) (c : Cell) (p : String)
    (d : Int × Int × Int) : Prop :=
  ∃ q0 : Int × Int × Int,
    (inGrid q0 ∧ inGrid (add3 q0 d) ∧ inGrid (add3 (add3 q0 d) d)) ∧
    (q0 = cellPos c ∨ add3 q0 d = cellPos c ∨ add3 (add3 q0 d) d = cellPos c) ∧
    ∀ q, (q = q0 ∨ q = add3 q0 d ∨ q = add3 (add3 q0 d) d) →
      q ≠ cellPos c → occBy b q p

/-- Stated from the specification, for comparison with `checkWin`: some
line of three same-player cells through `c` exists along one of the 13
undirected line directions. -/
def winningLineThrough (b : Board) (c : Cell) (p : String) : Prop :=
  ∃ d ∈ lineDirs, lineThroughWith b c p d

/-! ### Basic lemmas about the directional scan -/

theorem inRange_iff (x y z : Int) :
    inRange x y z = true ↔ 0 ≤ x ∧ x < 3 ∧ 0 ≤ y ∧ y < 3 ∧ 0 ≤ z ∧ z < 3 := by
  simp [inRange, and_assoc]

theorem getCell_eq_none (b : Board) (x y z : Int) (h : ¬ inRange x y z = true) :
    getCell b x y z = none := by
  unfold getCell
  exact dif_neg h

theorem countGo_zero (b : Board) (p : String) (d : Int × Int × Int)
    (x y z : Int) (cnt : Nat) : countGo b p d 0 x y z cnt = cnt := rfl

theorem countGo_succ (b : Board) (p : String) (d : Int × Int × Int)
    (f : Nat) (x y z : Int) (cnt : Nat) :
    countGo b p d (f + 1) x y z cnt =
      if getCell b x y z = some (some p) then
        countGo b p d f (x + d.1) (y + d.2.1) (z + d.2.2) (cnt + 1)
      else cnt := rfl

theorem countGo_ge (b : Board) (p : String) (d : Int × Int × Int) :
    ∀ (f : Nat) (x y z : Int) (cnt : Nat), cnt ≤ countGo b p d f x y z cnt := by
  intro f
  induction f with
  | zero => intro x y z cnt; exact le_of_eq (countGo_zero b p d x y z cnt).symm
  | succ f ih =>
    intro x y z cnt
    rw [countGo_succ]
    split
    · exact le_trans (Nat.le_succ cnt) (ih _ _ _ _)
    · exact le_refl _

theorem countGo_le (b : Board) (p : String) (d : Int × Int × Int) :
    ∀ (f : Nat) (x y z : Int) (cnt : Nat), countGo b p d f x y z cnt ≤ cnt + f := by
  intro f
  induction f with
  | zero => intro x y z cnt; exact le_of_eq (countGo_zero b p d x y z cnt)
  | succ f ih =>
    intro x y z cnt
    rw [countGo_succ]
    split
    · exact le_trans (ih _ _ _ _) (by omega)
    · omega

theorem countGo_ge_one_iff (b : Board) (p : String) (d : Int × Int × Int)
    (f : Nat) (x y z : Int) (cnt : Nat) :
    cnt + 1 ≤ countGo b p d (f + 1) x y z cnt ↔
      getCell b x y z = some (some p) := by
  rw [countGo_succ]
  by_cases h : getCell b x y z = some (some p)
  · rw [if_pos h]
    exact iff_of_true (countGo_ge b p d f _ _ _ _) h
  · rw [if_neg h]
    exact iff_of_false (by omega) h

theorem countGo_ge_two_iff (b : Board) (p : String) (d : Int × Int × Int)
    (f : Nat) (x y z : Int) (cnt : Nat) :
    cnt + 2 ≤ countGo b p d (f + 2) x y z cnt ↔
      (getCell b x y z = some (some p) ∧
       getCell b (x + d.1) (y + d.2.1) (z + d.2.2) = some (some p)) := by
  have e2 : f + 2 = (f + 1) + 1 := rfl
  rw [e2, countGo_succ]
  by_cases h : getCell b x y z = some (some p)
  · rw [if_pos h]
    have h1 := countGo_ge_one_iff b p d f (x + d.1) (y + d.2.1) (z + d.2.2) (cnt + 1)
    constructor
    · intro hle
      exact ⟨h, h1.mp (by omega)⟩
    · intro ⟨_, hocc⟩
      have := h1.mpr hocc
      omega
  · rw [if_neg h]
    exact iff_of_false (by omega) (fun hc => h hc.1)

theorem countGo_ge_three_iff (b : Board) (p : String) (d : Int × Int × Int)
    (f : Nat) (x y z : Int) (cnt : Nat) :
    cnt + 3 ≤ countGo b p d (f + 3) x y z cnt ↔
      (getCell b x y z = some (some p) ∧
       getCell b (x + d.1) (y + d.2.1) (z + d.2.2) = some (some p) ∧
       getCell b (x + d.1 + d.1) (y + d.2.1 + d.2.1) (z + d.2.2 + d.2.2)
         = some (some p)) := by
  have e3 : f + 3 = (f + 2) + 1 := rfl
  rw [e3, countGo_succ]
  by_cases h : getCell b x y z = some (some p)
  · rw [if_pos h]
    have h2 := countGo_ge_two_iff b p d f (x + d.1) (y + d.2.1) (z + d.2.2) (cnt + 1)
    constructor
    · intro hle
      have := h2.mp (by omega)
      exact ⟨h, this.1, this.2⟩
    · intro ⟨_, hocc1, hocc2⟩
      have := h2.mpr ⟨hocc1, hocc2⟩
      omega
  · rw [if_neg h]
    exact iff_of_false (by omega) (fun hc => h hc.1)

theorem countInDirection_ge_one_iff (b : Board) (x y z : Int)
    (d : Int × Int × Int) (p : String) :
    1 ≤ countInDirection b x y z d p ↔
      getCell b (x + d.1) (y + d.2.1) (z + d.2.2) = some (some p) := by
  have h := countGo_ge_one_iff b p d 2 (x + d.1) (y + d.2.1) (z + d.2.2) 0
  exact h

theorem countInDirection_ge_two_iff (b : Board) (x y z : Int)
    (d : Int × Int × Int) (p : String) :
    2 ≤ countInDirection b x y z d p ↔
      (getCell b (x + d.1) (y + d.2.1) (z + d.2.2) = some (some p) ∧
       getCell b (x + d.1 + d.1) (y + d.2.1 + d.2.1) (z + d.2.2 + d.2.2)
         = some (some p)) := by
  have h := countGo_ge_two_iff b p d 1 (x + d.1) (y + d.2.1) (z + d.2.2) 0
  exact h

theorem countInDirection_ge_three_iff (b : Board) (x y z : Int)
    (d : Int × Int × Int) (p : String) :
    3 ≤ countInDirection b x y z d p ↔
      (getCell b (x + d.1) (y + d.2.1) (z + d.2.2) = some (some p) ∧
       getCell b (x + d.1 + d.1) (y + d.2.1 + d.2.1) (z + d.2.2 + d.2.2)
         = some (some p) ∧
       getCell b (x + d.1 + d.1 + d.1) (y + d.2.1 + d.2.1 + d.2.1)
         (z + d.2.2 + d.2.2 + d.2.2) = some (some p)) := by
  have h := countGo_ge_three_iff b p d 0 (x + d.1) (y + d.2.1) (z + d.2.2) 0
  exact h

/-- Three steps in a direction with a `±1` component leave the grid. -/
theorem getCell_third_step_none (b : Board) (x y z : Int)
    (d : Int × Int × Int) (hin : inRange x y z = true) (hd : hasUnitComp d) :
    getCell b (x + d.1 + d.1 + d.1) (y + d.2.1 + d.2.1 + d.2.1)
      (z + d.2.2 + d.2.2 + d.2.2) = none := by
  apply getCell_eq_none
  rw [inRange_iff] at hin ⊢
  rcases hd with h | h | h | h | h | h <;> omega

theorem countInDirection_le_two (b : Board) (x y z : Int)
    (d : Int × Int × Int) (p : String) (hin : inRange x y z = true)
    (hd : hasUnitComp d) : countInDirection b x y z d p ≤ 2 := by
  by_contra hc
  have h3 : 3 ≤ countInDirection b x y z d p := by omega
  rw [countInDirection_ge_three_iff] at h3
  rw [getCell_third_step_none b x y z d hin hd] at h3
  exact Option.noConfusion h3.2.2

/-- The scan loop of `countInDirection` terminates: when launched from an
in-range cell along any direction with a `±1` component, every fuel
budget of at least 3 computes the same count, so the fuel-3 value of
`countInDirection` is the exact value of the unbounded `while` loop. -/
theorem countGo_fuel_adequate (b : Board) (x y z : Int)
    (d : Int × Int × Int) (p : String) (hin : inRange x y z = true)
    (hd : hasUnitComp d) (e : Nat) :
    countGo b p d (3 + e) (x + d.1) (y + d.2.1) (z + d.2.2) 0
      = countInDirection b x y z d p := by
  have hthird := getCell_third_step_none b x y z d hin hd
  have e1 : 3 + e = (2 + e) + 1 := by omega
  have e2 : 3 + e = (1 + e) + 2 := by omega
  have e3 : 3 + e = e + 3 := by omega
  have ha1 :
      1 ≤ countGo b p d (3 + e) (x + d.1) (y + d.2.1) (z + d.2.2) 0 ↔
        getCell b (x + d.1) (y + d.2.1) (z + d.2.2) = some (some p) := by
    rw [e1]; exact countGo_ge_one_iff b p d (2 + e) _ _ _ 0
  have ha2 :
      2 ≤ countGo b p d (3 + e) (x + d.1) (y + d.2.1) (z + d.2.2) 0 ↔
        (getCell b (x + d.1) (y + d.2.1) (z + d.2.2) = some (some p) ∧
         getCell b (x + d.1 + d.1) (y + d.2.1 + d.2.1) (z + d.2.2 + d.2.2)
           = some (some p)) := by
    rw [e2]; exact countGo_ge_two_iff b p d (1 + e) _ _ _ 0
  have ha3 : ¬ 3 ≤ countGo b p d (3 + e) (x + d.1) (y + d.2.1) (z + d.2.2) 0 := by
    rw [e3]
    intro hc
    have := (countGo_ge_three_iff b p d e (x + d.1) (y + d.2.1)
      (z + d.2.2) 0).mp hc
    rw [hthird] at this
    exact Option.noConfusion this.2.2
  have hn1 := countInDirection_ge_one_iff b x y z d p
  have hn2 := countInDirection_ge_two_iff b x y z d p
  have hn3 : ¬ 3 ≤ countInDirection b x y z d p := by
    have := countInDirection_le_two b x y z d p hin hd
    omega
  have k1 := ha1.trans hn1.symm
  have k2 := ha2.trans hn2.symm
  omega

/-! ### Helper lemmas about the game step -/

theorem makeMove_board_eq (g : Game) (c : Cell) :
    (makeMove g c).board = (placePiece g.board c g.currentPlayer).1 := by
  simp only [makeMove]
  split
  · rfl
  · split <;> rfl

theorem makeMove_player_eq (g : Game) (c : Cell) :
    (makeMove g c).player = g.player := by
  simp only [makeMove]
  split
  · rfl
  · split <;> rfl

theorem placePiece_board_of_occupied (b : Board) (c : Cell) (p : String)
    (h : isCellEmpty b c = false) : placePiece b c p = (b, false) := by
  unfold placePiece
  rw [h]
  simp

/-- The cell used in concrete witnesses. -/
def c000 : Cell := (0, 0, 0)

/-- A concrete state whose cell `(0,0,0)` is already occupied by "X",
with status "playing" and current player "X". -/
def gOccupied : Game :=
  { board := fun c => if c = c000 then some "X" else none,
    currentPlayer := "X", gameStatus := .playing,
    player := PlayerState.initial }

/-! ### Claim theorems -/

/-- C8: `addScore(m)` increments exactly the count for `m` when `m` is
"X" or "O", and is a silent no-op for every other marker value. -/
theorem addScore_recognized_only (ps : PlayerState) (m : String) :
    (m = "X" → addScore ps m =
      { ps with score := { ps.score with forX := ps.score.forX + 1 } }) ∧
    (m = "O" → addScore ps m =
      { ps with score := { ps.score with forO := ps.score.forO + 1 } }) ∧
    (m ≠ "X" → m ≠ "O" → addScore ps m = ps) := by
  refine ⟨?_, ?_, ?_⟩
  · intro h
    subst h
    rfl
  · intro h
    subst h
    unfold addScore
    rw [if_neg (by decide), if_pos rfl]
  · intro h1 h2
    unfold addScore
    rw [if_neg h1, if_neg h2]

/-- Witness for C8 at concrete inputs. -/
theorem addScore_recognized_only_witness :
    (("Q" : String) ≠ "X" ∧ ("Q" : String) ≠ "O") ∧
      addScore PlayerState.initial "Q" = PlayerState.initial :=
  ⟨⟨by decide, by decide⟩,
    (addScore_recognized_only PlayerState.initial "Q").2.2 (by decide) (by decide)⟩

/-- C6: after the controller's `reset()`, every cell is empty, the
status is "playing", the current player is "X", and the score mapping is
unchanged. -/
theorem reset_clears_board_keeps_score (g : Game) :
    (∀ c : Cell, isCellEmpty (Game.reset g).board c = true) ∧
    (Game.reset g).gameStatus = Status.playing ∧
    (Game.reset g).currentPlayer = "X" ∧
    (Game.reset g).player.score = g.player.score :=
  ⟨fun _ => rfl, rfl, rfl, rfl⟩

/-- C10: neither `makeMove` nor the controller's `reset` ever modifies
the score record (in particular a move that sets the status to "won"
does not increment the winner's count). -/
theorem score_never_touched_by_controller (g : Game) (c : Cell) :
    (makeMove g c).player.score = g.player.score ∧
    (Game.reset g).player.score = g.player.score ∧
    ((makeMove g c).gameStatus = Status.won →
      (makeMove g c).player.score = g.player.score) :=
  ⟨congrArg PlayerState.score (makeMove_player_eq g c), rfl,
    fun _ => congrArg PlayerState.score (makeMove_player_eq g c)⟩

/-- C4: `placePiece` on an occupied cell fails and leaves the board
unchanged; on an empty cell it sets the occupant and succeeds; a second
call on the same cell fails and leaves the board of the first call
unchanged. -/
theorem placePiece_occupied_fails_empty_succeeds (b : Board) (c : Cell)
    (p : String) :
    (isCellEmpty b c = false → placePiece b c p = (b, false)) ∧
    (isCellEmpty b c = true →
      (placePiece b c p).2 = true ∧ (placePiece b c p).1 c = some p ∧
      ∀ c', c' ≠ c → (placePiece b c p).1 c' = b c') ∧
    placePiece (placePiece b c p).1 c p = ((placePiece b c p).1, false) := by
  have hred : isCellEmpty b c = true →
      placePiece b c p = (fun c' => if c' = c then some p else b c', true) := by
    intro h
    unfold placePiece
    rw [h]
    simp
  refine ⟨placePiece_board_of_occupied b c p, ?_, ?_⟩
  · intro h
    rw [hred h]
    exact ⟨rfl, if_pos rfl, fun c' hne => if_neg hne⟩
  · apply placePiece_board_of_occupied
    by_cases h : isCellEmpty b c
    · rw [hred h]
      show (if c = c then some p else b c).isNone = false
      rw [if_pos rfl]
      rfl
    · rw [placePiece_board_of_occupied b c p (by simpa using h)]
      simpa using h

/-- Witness for C4 at concrete inputs. -/
theorem placePiece_occupied_fails_empty_succeeds_witness :
    isCellEmpty Board.initial c000 = true ∧
    (placePiece Board.initial c000 "X").2 = true ∧
    (placePiece Board.initial c000 "X").1 c000 = some "X" ∧
    placePiece (placePiece Board.initial c000 "X").1 c000 "X"
      = ((placePiece Board.initial c000 "X").1, false) := by
  have h := placePiece_occupied_fails_empty_succeeds Board.initial c000 "X"
  have h2 := h.2.1 (by decide)
  exact ⟨by decide, h2.1, h2.2.1, h.2.2⟩

/-- The branch-by-branch effect description of `makeMove` used by the
claim about its ordering: placement first, then win check (player kept),
then draw check (player kept), else switch player. -/
def moveEffects (g : Game) (c : Cell) : Prop :=
  (makeMove g c).board = (placePiece g.board c g.currentPlayer).1 ∧
  (makeMove g c).board c = some g.currentPlayer ∧
  (checkWinCell (placePiece g.board c g.currentPlayer).1 c g.currentPlayer = true →
    (makeMove g c).gameStatus = Status.won ∧
    (makeMove g c).currentPlayer = g.currentPlayer) ∧
  (checkWinCell (placePiece g.board c g.currentPlayer).1 c g.currentPlayer = false →
    isBoardFull (placePiece g.board c g.currentPlayer).1 = true →
    (makeMove g c).gameStatus = Status.draw ∧
    (makeMove g c).currentPlayer = g.currentPlayer) ∧
  (checkWinCell (placePiece g.board c g.currentPlayer).1 c g.currentPlayer = false →
    isBoardFull (placePiece g.board c g.currentPlayer).1 = false →
    (makeMove g c).gameStatus = Status.playing ∧
    (g.currentPlayer = "X" → (makeMove g c).currentPlayer = "O") ∧
    (g.currentPlayer = "O" → (makeMove g c).currentPlayer = "X"))

/-- C3: for a state with status "playing" and an empty target cell,
`makeMove` places the current player's piece, then transitions to "won"
without switching the player if `checkWin` holds (this branch wins over
the full-board check), else to "draw" without switching if the board is
full, else stays "playing" and switches to the other marker. -/
theorem makeMove_ordered_effects (g : Game) (c : Cell)
    (hstatus : g.gameStatus = Status.playing)
    (hempty : isCellEmpty g.board c = true) : moveEffects g c := by
  have hplaced : (placePiece g.board c g.currentPlayer).1 c = some g.currentPlayer := by
    have h := (placePiece_occupied_fails_empty_succeeds g.board c
      g.currentPlayer).2.1 hempty
    exact h.2.1
  by_cases hw : checkWinCell (placePiece g.board c g.currentPlayer).1 c
      g.currentPlayer = true
  · refine ⟨makeMove_board_eq g c, ?_, fun _ => ?_, ?_, ?_⟩
    · rw [makeMove_board_eq g c]; exact hplaced
    · constructor <;> simp [makeMove, hw]
    · intro hf; rw [hw] at hf; exact absurd hf (by simp)
    · intro hf; rw [hw] at hf; exact absurd hf (by simp)
  · rw [Bool.not_eq_true] at hw
    by_cases hfull : isBoardFull (placePiece g.board c g.currentPlayer).1 = true
    · refine ⟨makeMove_board_eq g c, ?_, ?_, fun _ _ => ?_, ?_⟩
      · rw [makeMove_board_eq g c]; exact hplaced
      · intro ht; rw [hw] at ht; exact absurd ht (by simp)
      · constructor <;> simp [makeMove, hw, hfull]
      · intro _ hf; rw [hfull] at hf; exact absurd hf (by simp)
    · rw [Bool.not_eq_true] at hfull
      refine ⟨makeMove_board_eq g c, ?_, ?_, ?_, fun _ _ => ?_⟩
      · rw [makeMove_board_eq g c]; exact hplaced
      · intro ht; rw [hw] at ht; exact absurd ht (by simp)
      · intro _ ht; rw [hfull] at ht; exact absurd ht (by simp)
      · have hcp : (makeMove g c).currentPlayer =
            if g.currentPlayer = "X" then "O" else "X" := by
          simp [makeMove, hw, hfull]
        refine ⟨by simp [makeMove, hw, hfull, hstatus], ?_, ?_⟩
        · intro hx; rw [hcp, if_pos hx]
        · intro ho
          rw [hcp, if_neg]
          rw [ho]
          decide

/-- Witness for C3 at concrete inputs. -/
theorem makeMove_ordered_effects_witness :
    Game.initial.gameStatus = Status.playing ∧
    isCellEmpty Game.initial.board c000 = true ∧
    moveEffects Game.initial c000 :=
  ⟨rfl, rfl, makeMove_ordered_effects Game.initial c000 rfl rfl⟩

/-- C2 counterexample: a state with status "playing" whose target cell
is occupied, on which `makeMove` is not a no-op — the current player
switches from "X" to "O" even though the placement was rejected. -/
theorem makeMove_invalid_not_noop :
    gOccupied.gameStatus = Status.playing ∧
    isCellEmpty gOccupied.board c000 = false ∧
    (makeMove gOccupied c000).currentPlayer ≠ gOccupied.currentPlayer := by
  refine ⟨rfl, by decide, ?_⟩
  decide

/-- C2 amended: `makeMove` itself performs no validation; invalid moves
are filtered only by the click handler (`setupClickDetection`), which
ignores the event when the status is not "playing" or the cell is
occupied, so the game state is unchanged along the click path; moreover
`makeMove` on an occupied cell never changes board occupancy, because
`placePiece` rejects the placement (though status and current player may
still change). -/
theorem invalid_moves_filtered_by_click_guard (g : Game) (c : Cell) :
    (g.gameStatus ≠ Status.playing → clickMove g c = g) ∧
    (isCellEmpty g.board c = false → clickMove g c = g) ∧
    (isCellEmpty g.board c = false → (makeMove g c).board = g.board) := by
  refine ⟨?_, ?_, ?_⟩
  · intro h
    unfold clickMove
    rw [if_pos h]
  · intro h
    unfold clickMove
    by_cases hs : g.gameStatus ≠ Status.playing
    · rw [if_pos hs]
    · rw [if_neg hs, h]
      simp
  · intro h
    rw [makeMove_board_eq g c, placePiece_board_of_occupied g.board c
      g.currentPlayer h]

/-- Witness for the amended C2 at concrete inputs. -/
theorem invalid_moves_filtered_by_click_guard_witness :
    isCellEmpty gOccupied.board c000 = false ∧
    clickMove gOccupied c000 = gOccupied ∧
    (makeMove gOccupied c000).board = gOccupied.board :=
  ⟨by decide,
    (invalid_moves_filtered_by_click_guard gOccupied c000).2.1 (by decide),
    (invalid_moves_filtered_by_click_guard gOccupied c000).2.2 (by decide)⟩

theorem placePiece_frame (b : Board) (c : Cell) (p : String) (c' : Cell)
    (hne : c' ≠ c) : (placePiece b c p).1 c' = b c' := by
  by_cases h : isCellEmpty b c
  · exact ((placePiece_occupied_fails_empty_succeeds b c p).2.1 h).2.2 c' hne
  · rw [placePiece_board_of_occupied b c p (by simpa using h)]

theorem placePiece_keeps_occupied (b : Board) (c : Cell) (p : String)
    (c' : Cell) (hocc : b c' ≠ none) : (placePiece b c p).1 c' = b c' := by
  by_cases hc : c' = c
  · subst hc
    have h : isCellEmpty b c' = false := by
      unfold isCellEmpty
      rcases hval : b c' with _ | v
      · exact absurd hval hocc
      · rfl
    rw [placePiece_board_of_occupied b c' p h]
  · exact placePiece_frame b c p c' hc

/-- C5: no cell transitions from occupied back to empty, and no occupied
cell changes its marker, under `placePiece` and `makeMove` (the queries
are pure); a successful `placePiece` changes only the target cell, and
the number of occupied cells never decreases under `makeMove`. -/
theorem occupancy_monotone (b : Board) (c : Cell) (p : String) (g : Game)
    (c₁ : Cell) :
    (∀ c', c' ≠ c → (placePiece b c p).1 c' = b c') ∧
    (∀ c', b c' ≠ none → (placePiece b c p).1 c' = b c') ∧
    (∀ c', g.board c' ≠ none → (makeMove g c₁).board c' = g.board c') ∧
    occupiedCount g.board ≤ occupiedCount (makeMove g c₁).board := by
  refine ⟨fun c' => placePiece_frame b c p c',
    fun c' => placePiece_keeps_occupied b c p c', ?_, ?_⟩
  · intro c' hne
    rw [makeMove_board_eq]
    exact placePiece_keeps_occupied g.board c₁ g.currentPlayer c' hne
  · unfold occupiedCount
    rw [← List.countP_eq_length_filter, ← List.countP_eq_length_filter]
    apply List.countP_mono_left
    intro a _ ha
    have hne : g.board a ≠ none := by
      intro hn
      rw [hn] at ha
      exact Bool.noConfusion ha
    rw [makeMove_board_eq, placePiece_keeps_occupied g.board c₁
      g.currentPlayer a hne]
    exact ha

/-- A second cell used in concrete witnesses. -/
def c111 : Cell := (1, 1, 1)

/-- Witness for C5 at concrete inputs. -/
theorem occupancy_monotone_witness :
    (c111 ≠ c000 ∧ (placePiece Board.initial c000 "X").1 c111
      = Board.initial c111) ∧
    (gOccupied.board c000 ≠ none ∧
      (makeMove gOccupied c111).board c000 = gOccupied.board c000) ∧
    occupiedCount Game.initial.board
      ≤ occupiedCount (makeMove Game.initial c000).board :=
  ⟨⟨by decide,
    (occupancy_monotone Board.initial c000 "X" Game.initial c000).1 c111
      (by decide)⟩,
   ⟨by decide,
    (occupancy_monotone Board.initial c000 "X" gOccupied c111).2.2.1 c000
      (by decide)⟩,
   (occupancy_monotone Board.initial c000 "X" Game.initial c000).2.2.2⟩

/-- Every entry of the direction table, in both orientations, has a
component equal to `1` or `-1`. -/
theorem directions_hasUnitComp :
    ∀ pr ∈ directions, hasUnitComp pr.1 ∧ hasUnitComp pr.2 := by decide

/-- C7: for a cell with all coordinates in `[0,2]`, the direct grid
accesses of `isCellEmpty` and `placePiece` are in bounds (the
out-of-range error branch is unreachable), and the directional scan of
`countInDirection` — whose in-loop accesses are guarded by the bounds
check — terminates for every table direction: every fuel budget of at
least 3 computes the same count. -/
theorem inRange_access_safe_and_scan_terminates (b : Board) (x y z : Int)
    (p : String) (hx : 0 ≤ x ∧ x < 3) (hy : 0 ≤ y ∧ y < 3)
    (hz : 0 ≤ z ∧ z < 3) :
    (isCellEmptyAt b x y z).isSome = true ∧
    (placePieceAt b x y z p).isSome = true ∧
    ∀ pr ∈ directions, ∀ d : Int × Int × Int, (d = pr.1 ∨ d = pr.2) →
      ∀ e : Nat, countGo b p d (3 + e) (x + d.1) (y + d.2.1) (z + d.2.2) 0
        = countInDirection b x y z d p := by
  have hin : inRange x y z = true := by rw [inRange_iff]; omega
  refine ⟨?_, ?_, ?_⟩
  · unfold isCellEmptyAt getCell
    rw [dif_pos hin]
    rfl
  · unfold placePieceAt
    rw [dif_pos hin]
    rfl
  · intro pr hpr d hd e
    have hu : hasUnitComp d := by
      have hfacts := directions_hasUnitComp pr hpr
      rcases hd with h | h <;> subst h
      · exact hfacts.1
      · exact hfacts.2
    exact countGo_fuel_adequate b x y z d p hin hu e

/-- Witness for C7 at concrete inputs. -/
theorem inRange_access_safe_and_scan_terminates_witness :
    ((0:Int) ≤ 0 ∧ (0:Int) < 3) ∧
    ((isCellEmptyAt Board.initial 0 0 0).isSome = true ∧
     (placePieceAt Board.initial 0 0 0 "X").isSome = true ∧
     ∀ pr ∈ directions, ∀ d : Int × Int × Int, (d = pr.1 ∨ d = pr.2) →
       ∀ e : Nat, countGo Board.initial "X" d (3 + e) (0 + d.1) (0 + d.2.1)
         (0 + d.2.2) 0 = countInDirection Board.initial 0 0 0 d "X") :=
  ⟨by decide,
    inRange_access_safe_and_scan_terminates Board.initial 0 0 0 "X"
      (by decide) (by decide) (by decide)⟩

/-! ### Congruence: the scan never reads the queried cell -/

theorem toCell_eq_iff (x y z : Int) (h : inRange x y z = true) (c : Cell) :
    toCell x y z h = c ↔ (x, y, z) = cellPos c := by
  obtain ⟨cx, cy, cz⟩ := c
  rw [inRange_iff] at h
  simp only [toCell, cellPos, Prod.mk.injEq, Fin.ext_iff]
  omega

theorem getCell_congr_except (b1 b2 : Board) (c : Cell)
    (h : ∀ c' : Cell, c' ≠ c → b1 c' = b2 c') (x y z : Int)
    (hne : ((x, y, z) : Int × Int × Int) ≠ cellPos c) :
    getCell b1 x y z = getCell b2 x y z := by
  unfold getCell
  by_cases hin : inRange x y z = true
  · rw [dif_pos hin, dif_pos hin]
    refine congrArg some (h _ ?_)
    intro he
    exact hne ((toCell_eq_iff x y z hin c).mp he)
  · rw [dif_neg hin, dif_neg hin]

theorem pos_ne_base (q d : Int × Int × Int) (hu : hasUnitComp d) :
    ((q.1 + d.1, q.2.1 + d.2.1, q.2.2 + d.2.2) : Int × Int × Int) ≠ q ∧
    ((q.1 + d.1 + d.1, q.2.1 + d.2.1 + d.2.1, q.2.2 + d.2.2 + d.2.2) :
      Int × Int × Int) ≠ q ∧
    ((q.1 + d.1 + d.1 + d.1, q.2.1 + d.2.1 + d.2.1 + d.2.1,
      q.2.2 + d.2.2 + d.2.2 + d.2.2) : Int × Int × Int) ≠ q := by
  obtain ⟨q1, q2, q3⟩ := q
  obtain ⟨e1, e2, e3⟩ := d
  simp only [hasUnitComp] at hu
  refine ⟨?_, ?_, ?_⟩ <;>
    · intro he
      rw [Prod.mk.injEq, Prod.mk.injEq] at he
      dsimp only at he
      rcases hu with h | h | h | h | h | h <;> omega

theorem countInDirection_le_three (b : Board) (x y z : Int)
    (d : Int × Int × Int) (p : String) :
    countInDirection b x y z d p ≤ 3 :=
  countGo_le b p d 3 (x + d.1) (y + d.2.1) (z + d.2.2) 0

theorem countInDirection_congr (b1 b2 : Board) (x y z : Int) (p : String)
    (d : Int × Int × Int) (hu : hasUnitComp d)
    (hget : ∀ x' y' z' : Int, ((x', y', z') : Int × Int × Int) ≠ (x, y, z) →
      getCell b1 x' y' z' = getCell b2 x' y' z') :
    countInDirection b1 x y z d p = countInDirection b2 x y z d p := by
  have hne := pos_ne_base (x, y, z) d hu
  have e1 := hget (x + d.1) (y + d.2.1) (z + d.2.2) hne.1
  have e2 := hget (x + d.1 + d.1) (y + d.2.1 + d.2.1) (z + d.2.2 + d.2.2)
    hne.2.1
  have e3 := hget (x + d.1 + d.1 + d.1) (y + d.2.1 + d.2.1 + d.2.1)
    (z + d.2.2 + d.2.2 + d.2.2) hne.2.2
  have t1a := countInDirection_ge_one_iff b1 x y z d p
  have t1b := countInDirection_ge_one_iff b2 x y z d p
  have t2a := countInDirection_ge_two_iff b1 x y z d p
  have t2b := countInDirection_ge_two_iff b2 x y z d p
  have t3a := countInDirection_ge_three_iff b1 x y z d p
  have t3b := countInDirection_ge_three_iff b2 x y z d p
  rw [e1] at t1a t2a t3a
  rw [e2] at t2a t3a
  rw [e3] at t3a
  have k1 := t1a.trans t1b.symm
  have k2 := t2a.trans t2b.symm
  have k3 := t3a.trans t3b.symm
  have la := countInDirection_le_three b1 x y z d p
  have lb := countInDirection_le_three b2 x y z d p
  omega

/-- C9: `checkWin` never reads the occupant of the queried cell itself:
two boards that agree on the other 26 cells yield the same result for
every player marker (the routine counts the queried cell as the player's
piece unconditionally). -/
theorem checkWin_reads_only_other_cells (b1 b2 : Board) (c : Cell)
    (p : String) (h : ∀ c' : Cell, c' ≠ c → b1 c' = b2 c') :
    checkWinCell b1 c p = checkWinCell b2 c p := by
  have hget := getCell_congr_except b1 b2 c h
  have hcnt : ∀ d : Int × Int × Int, hasUnitComp d →
      countInDirection b1 ((c.1 : Nat) : Int) ((c.2.1 : Nat) : Int)
          ((c.2.2 : Nat) : Int) d p
        = countInDirection b2 ((c.1 : Nat) : Int) ((c.2.1 : Nat) : Int)
          ((c.2.2 : Nat) : Int) d p := by
    intro d hu
    exact countInDirection_congr b1 b2 _ _ _ p d hu (fun x' y' z' hne =>
      hget x' y' z' hne)
  unfold checkWinCell checkWin
  rw [Bool.eq_iff_iff, List.any_eq_true, List.any_eq_true]
  constructor <;> rintro ⟨pr, hpr, hcond⟩ <;> refine ⟨pr, hpr, ?_⟩ <;>
    rw [decide_eq_true_eq] at hcond ⊢ <;>
    obtain ⟨hu1, hu2⟩ := directions_hasUnitComp pr hpr
  · rw [← hcnt pr.1 hu1, ← hcnt pr.2 hu2]
    exact hcond
  · rw [hcnt pr.1 hu1, hcnt pr.2 hu2]
    exact hcond

/-- Witness for C9 at concrete inputs: the empty board and the board
with only `(0,0,0)` occupied agree off `(0,0,0)`, and `checkWin` at
`(0,0,0)` gives the same answer on both. -/
theorem checkWin_reads_only_other_cells_witness :
    (∀ c' : Cell, c' ≠ c000 → Board.initial c' = gOccupied.board c') ∧
    checkWinCell Board.initial c000 "X" = checkWinCell gOccupied.board c000 "X" :=
  ⟨by decide,
    checkWin_reads_only_other_cells Board.initial gOccupied.board c000 "X"
      (by decide)⟩

/-! ### The win check agrees with the line-existence specification -/

theorem directions_negated :
    ∀ pr ∈ directions, pr.2 = (-pr.1.1, -pr.1.2.1, -pr.1.2.2) := by decide

theorem hasUnitComp_neg (d d2 : Int × Int × Int)
    (hneg : d2 = (-d.1, -d.2.1, -d.2.2)) (hu : hasUnitComp d) :
    hasUnitComp d2 := by
  subst hneg
  obtain ⟨e1, e2, e3⟩ := d
  simp only [hasUnitComp] at hu ⊢
  omega

theorem add3_cancel (d d2 : Int × Int × Int)
    (hneg : d2 = (-d.1, -d.2.1, -d.2.2)) (q : Int × Int × Int) :
    add3 (add3 q d2) d = q := by
  subst hneg
  obtain ⟨q1, q2, q3⟩ := q
  obtain ⟨e1, e2, e3⟩ := d
  simp only [add3, Prod.mk.injEq]
  omega

theorem add3_cancel_rev (d d2 : Int × Int × Int)
    (hneg : d2 = (-d.1, -d.2.1, -d.2.2)) (q : Int × Int × Int) :
    add3 (add3 q d) d2 = q := by
  subst hneg
  obtain ⟨q1, q2, q3⟩ := q
  obtain ⟨e1, e2, e3⟩ := d
  simp only [add3, Prod.mk.injEq]
  omega

theorem eq_add3_of_add3_eq (d d2 : Int × Int × Int)
    (hneg : d2 = (-d.1, -d.2.1, -d.2.2)) {q r : Int × Int × Int}
    (h : add3 q d = r) : q = add3 r d2 := by
  rw [← h]
  exact (add3_cancel_rev d d2 hneg q).symm

theorem occBy_inGrid (b : Board) (q : Int × Int × Int) (p : String)
    (h : occBy b q p) : inGrid q := by
  unfold occBy getCell at h
  unfold inGrid
  by_cases hin : inRange q.1 q.2.1 q.2.2 = true
  · exact hin
  · rw [dif_neg hin] at h
    exact Option.noConfusion h

theorem cellPos_inGrid (c : Cell) : inGrid (cellPos c) := by
  obtain ⟨cx, cy, cz⟩ := c
  have h1 := cx.isLt
  have h2 := cy.isLt
  have h3 := cz.isLt
  unfold inGrid cellPos
  dsimp only
  rw [inRange_iff]
  omega

/-- For one direction pair `(d, d2 = -d)` of the table, the count test of
`checkWin` (runs in the two senses plus the placed cell reach 3) holds
exactly when a line of three consecutive in-grid cells through `c`
exists in direction `d` whose other cells are occupied by `p`. -/
theorem count_pair_iff_line (b : Board) (c : Cell) (p : String)
    (d d2 : Int × Int × Int) (hneg : d2 = (-d.1, -d.2.1, -d.2.2))
    (hu : hasUnitComp d) :
    (3 ≤ 1 + countInDirection b ((c.1 : Nat) : Int) ((c.2.1 : Nat) : Int)
        ((c.2.2 : Nat) : Int) d p
      + countInDirection b ((c.1 : Nat) : Int) ((c.2.1 : Nat) : Int)
        ((c.2.2 : Nat) : Int) d2 p) ↔
    lineThroughWith b c p d := by
  have hu2 : hasUnitComp d2 := hasUnitComp_neg d d2 hneg hu
  have hp1 : 1 ≤ countInDirection b ((c.1 : Nat) : Int) ((c.2.1 : Nat) : Int)
      ((c.2.2 : Nat) : Int) d p ↔ occBy b (add3 (cellPos c) d) p :=
    countInDirection_ge_one_iff b _ _ _ d p
  have hp2 : 2 ≤ countInDirection b ((c.1 : Nat) : Int) ((c.2.1 : Nat) : Int)
      ((c.2.2 : Nat) : Int) d p ↔
      (occBy b (add3 (cellPos c) d) p ∧
       occBy b (add3 (add3 (cellPos c) d) d) p) :=
    countInDirection_ge_two_iff b _ _ _ d p
  have hm1 : 1 ≤ countInDirection b ((c.1 : Nat) : Int) ((c.2.1 : Nat) : Int)
      ((c.2.2 : Nat) : Int) d2 p ↔ occBy b (add3 (cellPos c) d2) p :=
    countInDirection_ge_one_iff b _ _ _ d2 p
  have hm2 : 2 ≤ countInDirection b ((c.1 : Nat) : Int) ((c.2.1 : Nat) : Int)
      ((c.2.2 : Nat) : Int) d2 p ↔
      (occBy b (add3 (cellPos c) d2) p ∧
       occBy b (add3 (add3 (cellPos c) d2) d2) p) :=
    countInDirection_ge_two_iff b _ _ _ d2 p
  constructor
  · intro h
    have hcase : 2 ≤ countInDirection b ((c.1 : Nat) : Int)
          ((c.2.1 : Nat) : Int) ((c.2.2 : Nat) : Int) d p ∨
        2 ≤ countInDirection b ((c.1 : Nat) : Int) ((c.2.1 : Nat) : Int)
          ((c.2.2 : Nat) : Int) d2 p ∨
        (1 ≤ countInDirection b ((c.1 : Nat) : Int) ((c.2.1 : Nat) : Int)
          ((c.2.2 : Nat) : Int) d p ∧
         1 ≤ countInDirection b ((c.1 : Nat) : Int) ((c.2.1 : Nat) : Int)
          ((c.2.2 : Nat) : Int) d2 p) := by omega
    rcases hcase with h2p | h2m | ⟨h1p, h1m⟩
    · obtain ⟨o1, o2⟩ := hp2.mp h2p
      refine ⟨cellPos c, ⟨cellPos_inGrid c, occBy_inGrid b _ p o1,
        occBy_inGrid b _ p o2⟩, Or.inl rfl, ?_⟩
      intro q hq hqc
      rcases hq with rfl | rfl | rfl
      · exact absurd rfl hqc
      · exact o1
      · exact o2
    · obtain ⟨o1, o2⟩ := hm2.mp h2m
      have e1 : add3 (add3 (add3 (cellPos c) d2) d2) d
          = add3 (cellPos c) d2 := add3_cancel d d2 hneg _
      have e2 : add3 (add3 (add3 (add3 (cellPos c) d2) d2) d) d
          = cellPos c := by
        rw [e1]
        exact add3_cancel d d2 hneg _
      refine ⟨add3 (add3 (cellPos c) d2) d2,
        ⟨occBy_inGrid b _ p o2, ?_, ?_⟩, Or.inr (Or.inr e2), ?_⟩
      · rw [e1]
        exact occBy_inGrid b _ p o1
      · rw [e2]
        exact cellPos_inGrid c
      · intro q hq hqc
        rcases hq with rfl | rfl | rfl
        · exact o2
        · rw [e1]
          exact o1
        · exact absurd e2 hqc
    · have o1 := hp1.mp h1p
      have o2 := hm1.mp h1m
      have e1 : add3 (add3 (cellPos c) d2) d = cellPos c :=
        add3_cancel d d2 hneg _
      have e2 : add3 (add3 (add3 (cellPos c) d2) d) d
          = add3 (cellPos c) d := by rw [e1]
      refine ⟨add3 (cellPos c) d2,
        ⟨occBy_inGrid b _ p o2, ?_, ?_⟩, Or.inr (Or.inl e1), ?_⟩
      · rw [e1]
        exact cellPos_inGrid c
      · rw [e2]
        exact occBy_inGrid b _ p o1
      · intro q hq hqc
        rcases hq with rfl | rfl | rfl
        · exact o2
        · exact absurd e1 hqc
        · rw [e2]
          exact o1
  · rintro ⟨q0, ⟨hg0, hg1, hg2⟩, hmem, hocc⟩
    have hgoal : 2 ≤ countInDirection b ((c.1 : Nat) : Int)
          ((c.2.1 : Nat) : Int) ((c.2.2 : Nat) : Int) d p ∨
        2 ≤ countInDirection b ((c.1 : Nat) : Int) ((c.2.1 : Nat) : Int)
          ((c.2.2 : Nat) : Int) d2 p ∨
        (1 ≤ countInDirection b ((c.1 : Nat) : Int) ((c.2.1 : Nat) : Int)
          ((c.2.2 : Nat) : Int) d p ∧
         1 ≤ countInDirection b ((c.1 : Nat) : Int) ((c.2.1 : Nat) : Int)
          ((c.2.2 : Nat) : Int) d2 p) := by
      rcases hmem with hq | hq | hq
      · subst hq
        left
        refine hp2.mpr ⟨?_, ?_⟩
        · exact hocc _ (Or.inr (Or.inl rfl)) (pos_ne_base (cellPos c) d hu).1
        · exact hocc _ (Or.inr (Or.inr rfl))
            (pos_ne_base (cellPos c) d hu).2.1
      · have hq0 : q0 = add3 (cellPos c) d2 := eq_add3_of_add3_eq d d2 hneg hq
        subst hq0
        right; right
        have e2 : add3 (add3 (add3 (cellPos c) d2) d) d
            = add3 (cellPos c) d := by rw [add3_cancel d d2 hneg]
        constructor
        · apply hp1.mpr
          have h3 := hocc _ (Or.inr (Or.inr rfl))
            (by rw [e2]; exact (pos_ne_base (cellPos c) d hu).1)
          rw [e2] at h3
          exact h3
        · exact hm1.mpr (hocc _ (Or.inl rfl)
            (pos_ne_base (cellPos c) d2 hu2).1)
      · have hmid : add3 q0 d = add3 (cellPos c) d2 :=
          eq_add3_of_add3_eq d d2 hneg hq
        have hq0 : q0 = add3 (add3 (cellPos c) d2) d2 :=
          eq_add3_of_add3_eq d d2 hneg hmid
        subst hq0
        right; left
        refine hm2.mpr ⟨?_, ?_⟩
        · have h2 := hocc _ (Or.inr (Or.inl rfl))
            (by rw [hmid]; exact (pos_ne_base (cellPos c) d2 hu2).1)
          rw [hmid] at h2
          exact h2
        · exact hocc _ (Or.inl rfl) (pos_ne_base (cellPos c) d2 hu2).2.1
    omega

/-- C1: `checkWin(cell, player)` returns true exactly when, among the 13
undirected line directions, some line of exactly three in-grid cells
through `cell` has all its other cells occupied by `player` (the queried
cell itself is counted as the player's), for the queried cell at any
position on the line, not only its center. -/
theorem checkWin_iff_winning_line (b : Board) (c : Cell) (p : String) :
    checkWinCell b c p = true ↔ winningLineThrough b c p := by
  unfold checkWinCell checkWin winningLineThrough
  rw [List.any_eq_true]
  constructor
  · rintro ⟨pr, hpr, hcond⟩
    rw [decide_eq_true_eq] at hcond
    have hneg := directions_negated pr hpr
    have hu := (directions_hasUnitComp pr hpr).1
    refine ⟨pr.1, List.mem_map_of_mem Prod.fst hpr, ?_⟩
    exact (count_pair_iff_line b c p pr.1 pr.2 hneg hu).mp hcond
  · rintro ⟨d, hd, hline⟩
    rw [lineDirs, List.mem_map] at hd
    obtain ⟨pr, hpr, hfst⟩ := hd
    subst hfst
    have hneg := directions_negated pr hpr
    have hu := (directions_hasUnitComp pr hpr).1
    exact ⟨pr, hpr,
      decide_eq_true ((count_pair_iff_line b c p pr.1 pr.2 hneg hu).mpr hline)⟩

end TTT
